import Mathlib

/-!
# Verification of the `GeometryMerger` plane-merging engine

This file is a shallow embedding, over exact rationals, of
`src/processors/converters/geometry_merger.py`: the plane classifier
(Newell normal + offset), greedy plane grouping, union-find adjacency
clustering, T-junction resolution, boundary-edge extraction and chaining,
polygon-artifact cleanup, the two-pass `merge_planes` orchestrator and the
oracle-parameterised `merge_by_convex_hull`.  Python floats are modelled as
rationals; `math.sqrt` is modelled by `sqrtQ`, which is exact on perfect
squares (every square root arising in the concrete inputs below is of a
perfect square).  The theorems at the end settle the specification claims.
-/

attribute [local semireducible] Rat.add Rat.sub Rat.mul Rat.inv

namespace GeoMerge

/-- One Newton step loop for integer square roots, with explicit fuel so that
the kernel can evaluate it (the library `Nat.sqrt` is defined by well-founded
recursion, which does not reduce definitionally).  For `n ≥ 2` and starting
guess `n`, 200 steps are far more than the `O(log n)` needed at the
magnitudes occurring here. -/
def isqrtAux (n : Nat) : Nat → Nat → Nat
  | 0, x => x
  | fuel+1, x =>
    let xn := (x + n / x) / 2
    if xn < x then isqrtAux n fuel xn else x

/-- Integer square root (floor), kernel-evaluable. -/
def natSqrtF (n : Nat) : Nat :=
  if n ≤ 1 then n else isqrtAux n 200 n

/-- Model of Python `math.sqrt` on nonnegative rationals: exact when the
argument is a square of a rational, otherwise a truncated approximation at
12 decimal digits.  All square roots taken on the concrete inputs in this
file are exact. -/
def sqrtQ (q : ℚ) : ℚ :=
  if q ≤ 0 then 0
  else
    let n := q.num.toNat
    let d := q.den
    let sn := natSqrtF n
    let sd := natSqrtF d
    if sn * sn = n ∧ sd * sd = d then (sn : ℚ) / (sd : ℚ)
    else (natSqrtF (n * 10 ^ 24 / d) : ℚ) / 10 ^ 12

/-- Floor of a rational as an integer, via Euclidean division (kernel-evaluable). -/
def floorQ (q : ℚ) : ℤ := Int.ediv q.num q.den

/-- Round-half-to-even on rationals, the tie-breaking rule of Python `round`. -/
def roundHalfEven (q : ℚ) : ℤ :=
  let f := floorQ q
  if q - (f : ℚ) < 1/2 then f
  else if (1/2 : ℚ) < q - (f : ℚ) then f + 1
  else if f % 2 = 0 then f else f + 1

/-- Model of Python `round(x, 3)`. -/
def pyRound3 (q : ℚ) : ℚ := ((roundHalfEven (q * 1000) : ℚ)) / 1000

/-- A 3D point with rational coordinates (models a Python vertex dict
`{'x': .., 'y': .., 'z': ..}` and also coordinate triples). -/
structure P3 where
  x : ℚ
  y : ℚ
  z : ℚ
  deriving DecidableEq, Repr, Inhabited

/-- Model of `_pt_to_tuple`: round each coordinate to 3 decimals. -/
def ptToTuple (p : P3) : P3 := ⟨pyRound3 p.x, pyRound3 p.y, pyRound3 p.z⟩

/-- Lexicographic comparison of coordinate triples, as Python compares
3-tuples of floats. -/
def p3Lt (a b : P3) : Bool :=
  decide (a.x < b.x) ||
    (a.x == b.x && (decide (a.y < b.y) || (a.y == b.y && decide (a.z < b.z))))

/-- Python `tuple(sorted((p1, p2)))` on a pair of coordinate triples. -/
def sortPair (pr : P3 × P3) : P3 × P3 :=
  if p3Lt pr.2 pr.1 then (pr.2, pr.1) else (pr.1, pr.2)

/-- Squared Euclidean distance (the Python code always compares squared
distances against squared tolerances). -/
def distSq (a b : P3) : ℚ :=
  (a.x - b.x) * (a.x - b.x) + (a.y - b.y) * (a.y - b.y) + (a.z - b.z) * (a.z - b.z)

/-- Dot product of coordinate triples. -/
def dotV (a b : P3) : ℚ := a.x * b.x + a.y * b.y + a.z * b.z

/-- Cross product of coordinate triples (as `np.cross`). -/
def crossV (a b : P3) : P3 :=
  ⟨a.y * b.z - a.z * b.y, a.z * b.x - a.x * b.z, a.x * b.y - a.y * b.x⟩

def vAdd (a b : P3) : P3 := ⟨a.x + b.x, a.y + b.y, a.z + b.z⟩

def vSub (a b : P3) : P3 := ⟨a.x - b.x, a.y - b.y, a.z - b.z⟩

def vScale (c : ℚ) (a : P3) : P3 := ⟨c * a.x, c * a.y, c * a.z⟩

def normSq (a : P3) : ℚ := a.x * a.x + a.y * a.y + a.z * a.z

/-- A value of a face-record field: either a vertex dict (whose coordinate
fields are numbers) or anything else (skipped by `_extract_vertices`). -/
inductive PyVal where
  | pdict (fields : List (String × ℚ))
  | other
  deriving DecidableEq, Repr, Inhabited

/-- A face record: a Python dict from strings to values, in insertion order. -/
abbrev FaceJson := List (String × PyVal)

/-- Python `float(v.get(key, 0))` on a vertex dict. -/
def pyGet (fields : List (String × ℚ)) (k : String) : ℚ :=
  (fields.lookup k).getD 0

/-- Zero-padded 3-digit decimal, as Python `f"{n:03d}"`. -/
def pad3 (n : Nat) : String :=
  let s := toString n
  if s.length < 3 then String.mk (List.replicate (3 - s.length) '0') ++ s else s

/-- Model of `_format_to_json`: vertices keyed `Vertex_001`, `Vertex_002`, ... -/
def formatToJson (verts : List P3) : FaceJson :=
  verts.enum.map (fun p =>
    ("Vertex_" ++ pad3 (p.1 + 1), PyVal.pdict [("x", p.2.x), ("y", p.2.y), ("z", p.2.z)]))

/-- Strict lexicographic order on character lists by code point, the order
Python uses to compare strings. -/
def charListLt : List Char → List Char → Bool
  | [], [] => false
  | [], _ :: _ => true
  | _ :: _, [] => false
  | a :: as, b :: bs =>
    if a < b then true else if b < a then false else charListLt as bs

/-- Python `s1 < s2` on strings. -/
def strLtB (a b : String) : Bool := charListLt a.toList b.toList

/-- Stable insertion (used by the stable sorts below): `x` is placed after
every element strictly smaller than it and before the first that is not. -/
def insByLt (lt : α → α → Bool) (x : α) : List α → List α
  | [] => [x]
  | y :: ys => if lt y x then y :: insByLt lt x ys else x :: y :: ys

/-- Stable insertion sort, modelling Python `sorted`/`list.sort` (ascending,
stable). -/
def sortByLt (lt : α → α → Bool) : List α → List α
  | [] => []
  | x :: xs => insByLt lt x (sortByLt lt xs)

/-- Boolean substring test, modelling Python `"vertex" in k.lower()`. -/
def containsSub (pat : List Char) (s : List Char) : Bool :=
  match s with
  | [] => decide (pat = [])
  | _ :: rest => (pat.isPrefixOf s) || containsSub pat rest

/-- The key filter of `_extract_vertices`: keys containing the substring
`vertex`, case-insensitively. -/
def hasVertexKey (k : String) : Bool :=
  containsSub "vertex".toList (k.toList.map Char.toLower)

/-- Model of `_extract_vertices`: keys containing `vertex` (case-insensitive) are
sorted lexicographically; entries whose value is not a dict are skipped;
missing coordinates default to `0`. -/
def extractVertices (data : FaceJson) : List P3 :=
  let sortedKeys := sortByLt strLtB (((data.map Prod.fst).filter hasVertexKey))
  sortedKeys.filterMap (fun k =>
    match data.lookup k with
    | some (PyVal.pdict fields) =>
      some ⟨pyGet fields "x", pyGet fields "y", pyGet fields "z"⟩
    | _ => none)

/-- The accumulated Newell vector of `_calculate_normal`. -/
def newellSum (verts : List P3) : P3 :=
  let n := verts.length
  (List.range n).foldl (fun acc i =>
    let c := verts.getD i default
    let nx := verts.getD ((i + 1) % n) default
    ⟨acc.x + (nx.y - c.y) * (c.z + nx.z),
     acc.y + (nx.z - c.z) * (c.x + nx.x),
     acc.z + (nx.x - c.x) * (c.y + nx.y)⟩) ⟨0, 0, 0⟩

/-- Model of `_calculate_normal`: normalised Newell vector, with the `(0, 1, 0)`
fallback when the magnitude is below `1e-9`. -/
def calculateNormal (verts : List P3) : P3 :=
  let s := newellSum verts
  let l := sqrtQ (normSq s)
  if l < 1/1000000000 then ⟨0, 1, 0⟩ else ⟨s.x / l, s.y / l, s.z / l⟩

/-- An edge record as built by `_extract_edges`: endpoints, unit direction
and length. -/
structure EdgeRec where
  p1 : P3
  p2 : P3
  vec : P3
  length : ℚ
  deriving DecidableEq, Repr, Inhabited

/-- Model of `_extract_edges`. -/
def extractEdges (verts : List P3) : List EdgeRec :=
  let n := verts.length
  (List.range n).map (fun i =>
    let p1 := verts.getD i default
    let p2 := verts.getD ((i + 1) % n) default
    let v := vSub p2 p1
    let length := sqrtQ (normSq v)
    let uv : P3 := if length < 1/1000000000 then ⟨0, 0, 0⟩
                   else ⟨v.x / length, v.y / length, v.z / length⟩
    ⟨p1, p2, uv, length⟩)

/-- A face as assembled in `_execute_single_pass`'s `face_list`. -/
structure FaceRec where
  originalKey : String
  verts : List P3
  normal : P3
  d : ℚ
  edges : List EdgeRec
  deriving DecidableEq, Repr, Inhabited

/-- The `face_list` loop of `_execute_single_pass`: faces from which fewer
than 3 vertices are extracted are skipped; the rest get normal, plane offset
`d` and edge list. -/
def buildFaceList (planeItems : List (String × FaceJson)) : List FaceRec :=
  planeItems.filterMap (fun kv =>
    let verts := extractVertices kv.2
    if verts.length < 3 then none
    else
      let normal := calculateNormal verts
      let v0 := verts.getD 0 default
      some { originalKey := kv.1, verts := verts, normal := normal,
             d := -(normal.x * v0.x + normal.y * v0.y + normal.z * v0.z),
             edges := extractEdges verts })

/-- The join condition of `_group_by_plane`: normals' dot strictly above
`1 - norm_tol` and plane offsets within `dist_tol` of the seed. -/
def planeCond (normTol distTol : ℚ) (a b : FaceRec) : Bool :=
  decide (dotV a.normal b.normal > 1 - normTol) && decide (|a.d - b.d| < distTol)

/-- The inner `j`-loop of `_group_by_plane`: scan the faces after the seed in
order, skip the visited ones, collect those satisfying `planeCond` against
the seed and mark them visited.  Faces are paired with their visited flag. -/
def gbpInner (normTol distTol : ℚ) (seed : FaceRec) :
    List (FaceRec × Bool) → List FaceRec × List (FaceRec × Bool)
  | [] => ([], [])
  | (f, vis) :: rest =>
    if vis then
      let pr := gbpInner normTol distTol seed rest
      (pr.1, (f, vis) :: pr.2)
    else if planeCond normTol distTol seed f then
      let pr := gbpInner normTol distTol seed rest
      (f :: pr.1, (f, true) :: pr.2)
    else
      let pr := gbpInner normTol distTol seed rest
      (pr.1, (f, false) :: pr.2)

/-- The outer `i`-loop of `_group_by_plane`: each unvisited face seeds a
group; visited faces are skipped.  The fuel is the number of remaining
faces (marking preserves the list length, so one unit per face suffices);
it is kept explicit so that the kernel can evaluate the definition. -/
def gbpOuter (normTol distTol : ℚ) : Nat → List (FaceRec × Bool) → List (List FaceRec)
  | 0, _ => []
  | _+1, [] => []
  | fuel+1, (_, true) :: rest => gbpOuter normTol distTol fuel rest
  | fuel+1, (f, false) :: rest =>
    let pr := gbpInner normTol distTol f rest
    (f :: pr.1) :: gbpOuter normTol distTol fuel pr.2

/-- Model of `_group_by_plane`. -/
def groupByPlane (normTol distTol : ℚ) (faces : List FaceRec) : List (List FaceRec) :=
  gbpOuter normTol distTol faces.length (faces.map (fun f => (f, false)))

/-- The faces not yet marked visited, in order (used to reason about the
grouping loops). -/
def unvisitedFaces (l : List (FaceRec × Bool)) : List FaceRec :=
  (l.filter (fun p => !p.2)).map Prod.fst

/-- Model of `_is_collinear`. -/
def isCollinearE (pointTol : ℚ) (ea eb : EdgeRec) : Bool :=
  let diff := vSub eb.p1 ea.p1
  let c := crossV diff ea.vec
  decide (normSq c < pointTol * pointTol)

/-- Model of `_is_overlapping`. -/
def isOverlapping (pointTol : ℚ) (ea eb : EdgeRec) : Bool :=
  let proj := fun (p : P3) => dotV (vSub p ea.p1) ea.vec
  let b1 := proj eb.p1
  let b2 := proj eb.p2
  let s := max 0 (min b1 b2)
  let e := min ea.length (max b1 b2)
  decide (e - s > pointTol)

/-- Model of `_are_faces_touching`: some edge pair is parallel within `norm_tol`,
collinear within `point_tol` and overlapping by more than `point_tol`. -/
def areFacesTouching (normTol pointTol : ℚ) (fa fb : FaceRec) : Bool :=
  fa.edges.any (fun ea => fb.edges.any (fun eb =>
    if |dotV ea.vec eb.vec| < 1 - normTol then false
    else isCollinearE pointTol ea eb && isOverlapping pointTol ea eb))

/-- Union-find `find` with fuel (chains have length at most `n`; path
compression in the Python code changes only the parent array layout, never
the root returned, so it is omitted). -/
def ufFind (parent : List Nat) : Nat → Nat → Nat
  | 0, i => i
  | fuel+1, i =>
    let p := parent.getD i i
    if p = i then i else ufFind parent fuel p

/-- The union loop of `_cluster_by_adjacency` over all pairs `i < j` in
ascending order. -/
def ufUnionAll (touch : Nat → Nat → Bool) (n : Nat) : List Nat :=
  let pairs := (List.range n).flatMap (fun i =>
    ((List.range n).filter (fun j => decide (i < j))).map (fun j => (i, j)))
  pairs.foldl (fun parent pr =>
    if touch pr.1 pr.2 then
      let r1 := ufFind parent n pr.1
      let r2 := ufFind parent n pr.2
      if r1 ≠ r2 then parent.set r2 r1 else parent
    else parent) (List.range n)

/-- Append a member to the group of root `r`, keeping Python-dict insertion
order of the roots. -/
def dictAppend (acc : List (Nat × List FaceRec)) (r : Nat) (f : FaceRec) :
    List (Nat × List FaceRec) :=
  if acc.any (fun kv => kv.1 == r) then
    acc.map (fun kv => if kv.1 == r then (kv.1, kv.2 ++ [f]) else kv)
  else acc ++ [(r, [f])]

/-- Model of `_cluster_by_adjacency`. -/
def clusterByAdjacency (normTol pointTol : ℚ) (group : List FaceRec) : List (List FaceRec) :=
  let n := group.length
  let touch := fun i j =>
    areFacesTouching normTol pointTol (group.getD i default) (group.getD j default)
  let parent := ufUnionAll touch n
  let byRoot := (List.range n).foldl (fun acc i =>
    dictAppend acc (ufFind parent n i) (group.getD i default)) []
  byRoot.map Prod.snd

/-- Model of `_is_point_on_segment` (the Python signature also receives `p2`, which
the body never reads). -/
def isPointOnSegment (pointTol : ℚ) (pt p1 _p2 : P3) (vec : P3) (lenSq : ℚ) : Bool :=
  let vpt := vSub pt p1
  let c := crossV vpt vec
  if decide (normSq c > pointTol * pointTol * lenSq) then false
  else
    let d := dotV vpt vec
    if decide (d < pointTol) || decide (d > lenSq - pointTol) then false
    else true

/-- The deduplicated set of rounded cluster vertices (`all_points`); a Python
`set` iterates in unspecified order, modelled here by first-insertion
order — the only place the order could matter is breaking exact ties in the
distance sort below, and no tie occurs in the concrete inputs of this file. -/
def allClusterPoints (cluster : List FaceRec) : List P3 :=
  cluster.foldl (fun acc f =>
    f.verts.foldl (fun a v =>
      let t := ptToTuple v
      if a.contains t then a else a ++ [t]) acc) []

/-- Model of `_resolve_t_junctions`: splice every other cluster vertex lying on the
open interior of an edge into that edge's vertex sequence, ordered by
distance from the edge start. -/
def resolveTJunctions (pointTol : ℚ) (cluster : List FaceRec) : List (List P3) :=
  let allPoints := allClusterPoints cluster
  cluster.map (fun face =>
    let ov := face.verts
    let n := ov.length
    (List.range n).foldl (fun seq i =>
      let p1 := ov.getD i default
      let p2 := ov.getD ((i + 1) % n) default
      let seq := seq ++ [p1]
      let p1t := ptToTuple p1
      let p2t := ptToTuple p2
      let vec := vSub p2 p1
      let segLenSq := normSq vec
      if decide (segLenSq < 1/1000000000) then seq
      else
        let onSeg := allPoints.filter (fun cp =>
          if cp == p1t || cp == p2t then false
          else isPointOnSegment pointTol cp p1 p2 vec segLenSq)
        let sortedPts := sortByLt (fun a b => decide (distSq a p1 < distSq b p1)) onSeg
        seq ++ sortedPts) [])

/-- Model of `_remove_spikes`: drop vertex `i` when its cyclic neighbours are within
`tol` of each other. -/
def removeSpikes (tol : ℚ) (verts : List P3) : List P3 :=
  if verts.length < 3 then verts
  else
    let n := verts.length
    (List.range n).filterMap (fun i =>
      let pPrev := verts.getD ((i + n - 1) % n) default
      let pNext := verts.getD ((i + 1) % n) default
      if distSq pPrev pNext < tol * tol then none else some (verts.getD i default))

/-- The index loop of `_remove_short_edges`, with its `skip_next` flag.  The
recursion is by the number of remaining indices. -/
def rseLoop (tolSq : ℚ) (verts : List P3) (n : Nat) : Nat → Nat → Bool → List P3
  | 0, _, _ => []
  | fuel+1, i, skipNext =>
    if n ≤ i then []
    else if skipNext then rseLoop tolSq verts n fuel (i + 1) false
    else
      let pc := verts.getD i default
      let pn := verts.getD ((i + 1) % n) default
      if distSq pc pn < tolSq then
        pc :: rseLoop tolSq verts n fuel (i + 1) (decide (i < n - 1))
      else
        pc :: rseLoop tolSq verts n fuel (i + 1) false

/-- Model of `_remove_short_edges`. -/
def removeShortEdges (tol : ℚ) (verts : List P3) : List P3 :=
  if verts.length < 3 then verts
  else rseLoop (tol * tol) verts verts.length verts.length 0 false

/-- Model of `_remove_collinear`: drop vertex `i` when the unit directions of its two
incident edges have dot product above `0.9999` (or either edge is
degenerate). -/
def removeCollinear (verts : List P3) : List P3 :=
  if verts.length < 3 then verts
  else
    let n := verts.length
    (List.range n).filterMap (fun i =>
      let pPrev := verts.getD ((i + n - 1) % n) default
      let pCurr := verts.getD i default
      let pNext := verts.getD ((i + 1) % n) default
      let v1 := vSub pCurr pPrev
      let len1 := sqrtQ (normSq v1)
      let v2 := vSub pNext pCurr
      let len2 := sqrtQ (normSq v2)
      if decide (len1 < 1/1000000000) || decide (len2 < 1/1000000000) then none
      else
        let u1 : P3 := ⟨v1.x / len1, v1.y / len1, v1.z / len1⟩
        let u2 : P3 := ⟨v2.x / len2, v2.y / len2, v2.z / len2⟩
        if dotV u1 u2 > 9999/10000 then none else some pCurr)

/-- The fixed-point iteration of `_clean_polygon_artifacts`: spikes, then
short edges, then collinear vertices, stopping when an iteration leaves the
length unchanged or the loop gets below 3 vertices, for at most the given
number of iterations. -/
def cleanIter (pointTol : ℚ) : Nat → List P3 → List P3
  | 0, cur => cur
  | fuel+1, cur =>
    let startLen := cur.length
    if startLen < 3 then cur
    else
      let c1 := removeSpikes pointTol cur
      let c2 := removeShortEdges pointTol c1
      let c3 := removeCollinear c2
      if c3.length = startLen then c3 else cleanIter pointTol fuel c3

/-- Model of `_clean_polygon_artifacts` (max 10 iterations). -/
def cleanPolygonArtifacts (pointTol : ℚ) (verts : List P3) : List P3 :=
  cleanIter pointTol 10 verts

/-- The rounded directed edge tuples of one refined face. -/
def faceEdgeTuples (verts : List P3) : List (P3 × P3) :=
  let n := verts.length
  (List.range n).map (fun i =>
    (ptToTuple (verts.getD i default), ptToTuple (verts.getD ((i + 1) % n) default)))

/-- All canonical (sorted) undirected edge keys of the refined cluster; an
edge's multiplicity in this list is its `edge_count` value. -/
def allEdgeKeys (refined : List (List P3)) : List (P3 × P3) :=
  (refined.map (fun f => (faceEdgeTuples f).map sortPair)).flatten

/-- The boundary-edge extraction of `_merge_cluster_to_polygons`: directed
edges whose undirected key occurs exactly once across the cluster. -/
def boundaryEdgesOf (refined : List (List P3)) : List (P3 × P3) :=
  let keys := allEdgeKeys refined
  (refined.map (fun f =>
    (faceEdgeTuples f).filter (fun e => keys.count (sortPair e) == 1))).flatten

/-- Python-dict insert (overwrite in place, else append). -/
def adjInsert (m : List (P3 × P3)) (k v : P3) : List (P3 × P3) :=
  if m.any (fun kv => kv.1 == k) then
    m.map (fun kv => if kv.1 == k then (k, v) else kv)
  else m ++ [(k, v)]

/-- Python-dict delete (no-op when absent). -/
def adjDelete (m : List (P3 × P3)) (k : P3) : List (P3 × P3) :=
  m.filter (fun kv => kv.1 != k)

def adjLookup (m : List (P3 × P3)) (k : P3) : Option P3 :=
  (m.find? (fun kv => kv.1 == k)).map Prod.snd

/-- The inner `while` of `_chain_edges_all`: follow the successor map from
`startPt`; on a dead end discard the chain and delete its points from the
map; on returning to `startPt` emit the closed loop.  The fuel is the
`max_iter = 2 * len(adj)` bound of the source. -/
def chainInner (startPt : P3) : Nat → P3 → List (P3 × P3) → List P3 →
    List (P3 × P3) × Option (List P3)
  | 0, _, adj, _ => (adj, none)
  | fuel+1, currPt, adj, loop =>
    let loop := loop ++ [currPt]
    match adjLookup adj currPt with
    | none => (loop.foldl (fun a p => adjDelete a p) adj, none)
    | some nextPt =>
      let adj := adjDelete adj currPt
      if nextPt == startPt then (adj, some loop)
      else chainInner startPt fuel nextPt adj loop

/-- The outer `while adj` of `_chain_edges_all`.  Each round deletes at least
the entry of its start point, so `len(adj) + 1` rounds always suffice. -/
def chainOuter : Nat → List (P3 × P3) → List (List P3) → List (List P3)
  | 0, _, loops => loops
  | fuel+1, adj, loops =>
    match adj with
    | [] => loops
    | (k, _) :: _ =>
      let pr := chainInner k (2 * adj.length) k adj []
      match pr.2 with
      | some loop => chainOuter fuel pr.1 (loops ++ [loop])
      | none => chainOuter fuel pr.1 loops

/-- Model of `_chain_edges_all`. -/
def chainEdgesAll (edges : List (P3 × P3)) : List (List P3) :=
  let adj := edges.foldl (fun m e => adjInsert m e.1 e.2) []
  chainOuter (adj.length + 1) adj []

/-- The per-loop tail of `_merge_cluster_to_polygons`: clean each chained
loop, abort (`none`) as soon as one drops below 3 vertices, and orient each
against the cluster's reference normal. -/
def loopsToPolys (pointTol : ℚ) (refNormal : P3) : List (List P3) → Option (List (List P3))
  | [] => some []
  | loop :: rest =>
    let mv := cleanPolygonArtifacts pointTol loop
    if mv.length < 3 then none
    else
      let newNormal := calculateNormal mv
      let mv := if dotV newNormal refNormal < 0 then mv.reverse else mv
      (loopsToPolys pointTol refNormal rest).map (fun ps => mv :: ps)

/-- Model of `_merge_cluster_to_polygons`: `none` models Python `None`. -/
def mergeClusterToPolygons (pointTol : ℚ) (cluster : List FaceRec) :
    Option (List (List P3)) :=
  let refined := resolveTJunctions pointTol cluster
  let boundary := boundaryEdgesOf refined
  if boundary.isEmpty then none
  else
    let allLoops := chainEdgesAll boundary
    if allLoops.isEmpty then none
    else loopsToPolys pointTol ((cluster.headD default).normal) allLoops

/-- The passthrough branch of `_execute_single_pass`: each member face of an
abandoned cluster is re-emitted under a fresh key with its original vertex
loop. -/
def passthroughEntries : List FaceRec → Nat → List (String × FaceJson)
  | [], _ => []
  | f :: rest, idx =>
    ("Plane_" ++ pad3 idx, formatToJson f.verts) :: passthroughEntries rest (idx + 1)

/-- The merged branch of `_execute_single_pass`. -/
def mergedEntries : List (List P3) → Nat → List (String × FaceJson)
  | [], _ => []
  | p :: rest, idx =>
    ("Plane_" ++ pad3 idx, formatToJson p) :: mergedEntries rest (idx + 1)

/-- The cluster loop of `_execute_single_pass`, with the shared running key
counter.  A cluster whose merge comes back `None` (or empty, which cannot
happen but is how Python tests it) falls back to passthrough. -/
def processClusters (pointTol : ℚ) : List (List FaceRec) → Nat → List (String × FaceJson)
  | [], _ => []
  | c :: rest, idx =>
    let polys := (mergeClusterToPolygons pointTol c).getD []
    if polys.isEmpty then
      passthroughEntries c idx ++ processClusters pointTol rest (idx + c.length)
    else
      mergedEntries polys idx ++ processClusters pointTol rest (idx + polys.length)

/-- All adjacency clusters of all plane groups, in processing order. -/
def allClusters (normTol distTol pointTol : ℚ)
    (planeItems : List (String × FaceJson)) : List (List FaceRec) :=
  ((groupByPlane normTol distTol (buildFaceList planeItems)).map
    (clusterByAdjacency normTol pointTol)).flatten

/-- Model of `_execute_single_pass`.  (The Python function also accumulates
`all_input_keys` / `successfully_processed_keys`, which it never reads
afterwards; that dead code is omitted.) -/
def executeSinglePass (normTol distTol pointTol : ℚ)
    (planeItems : List (String × FaceJson)) : List (String × FaceJson) :=
  processClusters pointTol (allClusters normTol distTol pointTol planeItems) 1

/-- One iteration of the `for i in range(2)` loop of `merge_planes`, acting
on the state (current data, current `point_tol`, early-returned?). -/
def mergeLoopBody (normTol distTol originalPointTol : ℚ)
    (st : List (String × FaceJson) × ℚ × Bool) (i : Nat) :
    List (String × FaceJson) × ℚ × Bool :=
  if st.2.2 then st
  else
    let passNum := i + 1
    let inputCount := st.1.length
    let ptol := if passNum = 2 then (5 : ℚ)/100 else st.2.1
    let newData := executeSinglePass normTol distTol ptol st.1
    let outputCount := newData.length
    let ptol := if passNum = 2 then originalPointTol else ptol
    if inputCount = outputCount ∧ passNum = 2 then (newData, ptol, true)
    else (newData, ptol, false)

/-- Model of `merge_planes`, returning the result together with the orchestrator's
`point_tol` field as it stands after the call. -/
def mergePlanesSt (normTol distTol pointTol : ℚ)
    (planeItems : List (String × FaceJson)) : List (String × FaceJson) × ℚ :=
  let res := [0, 1].foldl (mergeLoopBody normTol distTol pointTol)
    (planeItems, pointTol, false)
  (res.1, res.2.1)

/-- All vertices collected over all faces by `merge_by_convex_hull`. -/
def allVertsOf (planeItems : List (String × FaceJson)) : List P3 :=
  (planeItems.map (fun kv => extractVertices kv.2)).flatten

/-- Centroid of the collected vertices (`np.mean(points, axis=0)`). -/
def centroidOf (pts : List P3) : P3 :=
  let n : ℚ := pts.length
  ⟨(pts.map P3.x).sum / n, (pts.map P3.y).sum / n, (pts.map P3.z).sum / n⟩

/-- The best-fit normal step of `merge_by_convex_hull`: the SVD is an
a `numpy` routine outside this repo, modelled as an oracle returning `vh[2]`; on
decomposition failure (`none`) the code falls back to `(0, 0, 1)`. -/
def hullNormal (svd : List P3 → Option P3) (centered : List P3) : P3 :=
  (svd centered).getD ⟨0, 0, 1⟩

/-- The in-plane basis construction of `merge_by_convex_hull` (steps 3-4). -/
def hullAxes (normal : P3) : P3 × P3 :=
  let arb : P3 := if |normal.x| < 9/10 then ⟨1, 0, 0⟩ else ⟨0, 1, 0⟩
  let xAxis0 := crossV normal arb
  let normX := sqrtQ (normSq xAxis0)
  let xAxis := if normX < 1/1000000 then
      (if |normal.z| < 9/10 then (⟨0, 1, 0⟩ : P3) else ⟨1, 0, 0⟩)
    else vScale (1 / normX) xAxis0
  (xAxis, crossV normal xAxis)

/-- The centered points of `merge_by_convex_hull`. -/
def centeredOf (planeItems : List (String × FaceJson)) : List P3 :=
  let pts := allVertsOf planeItems
  pts.map (fun p => vSub p (centroidOf pts))

/-- The projected 2D cloud handed to the convex-hull routine (step 5). -/
def projectedPoints (svd : List P3 → Option P3)
    (planeItems : List (String × FaceJson)) : List (ℚ × ℚ) :=
  let centered := centeredOf planeItems
  let normal := hullNormal svd centered
  let ax := hullAxes normal
  centered.map (fun p => (dotV p ax.1, dotV p ax.2))

/-- Model of `merge_by_convex_hull`.  The `scipy` `ConvexHull` is a routine outside this repo,
modelled as an oracle from the projected 2D cloud to the hull's vertex
indices; `none` models the exception branch. -/
def mergeByConvexHull (svd : List P3 → Option P3)
    (hull : List (ℚ × ℚ) → Option (List Nat))
    (planeItems : List (String × FaceJson)) : List (String × FaceJson) :=
  if (allVertsOf planeItems).length < 3 then planeItems
  else
    let pts := allVertsOf planeItems
    let centroid := centroidOf pts
    let centered := centeredOf planeItems
    let normal := hullNormal svd centered
    let ax := hullAxes normal
    let points2d := projectedPoints svd planeItems
    match hull points2d with
    | none => planeItems
    | some hullIdx =>
      let hullPts2d := hullIdx.map (fun i => points2d.getD i (0, 0))
      let hullPts3d := hullPts2d.map (fun p2 =>
        vAdd centroid (vAdd (vScale p2.1 ax.1) (vScale p2.2 ax.2)))
      [("Merged_BackSide", formatToJson hullPts3d)]

/-- Modelled from the spec: the short-edge-removal step as the specification
describes it for the non-wraparound pairs — scan consecutive pairs left to
right, merge a pair closer than the tolerance by keeping the first vertex
and skipping the next.  Compared below with the source's index loop. -/
def shortEdgeScanSpec (tolSq : ℚ) : List P3 → List P3
  | [] => []
  | [x] => [x]
  | x :: y :: rest =>
    if distSq x y < tolSq then x :: shortEdgeScanSpec tolSq rest
    else x :: shortEdgeScanSpec tolSq (y :: rest)

/-- The vertex-dict projection used by `_extract_vertices` on a single
key/value pair: a dict yields a point (missing coordinates default to `0`),
anything else is skipped. -/
def pairToPoint (kv : String × PyVal) : Option P3 :=
  match kv.2 with
  | PyVal.pdict fields => some ⟨pyGet fields "x", pyGet fields "y", pyGet fields "z"⟩
  | PyVal.other => none

/-! ### Concrete inputs used by the claim scenarios -/

/-- Two coplanar unit squares in the plane `z = 0` sharing the full edge
from `(1,0,0)` to `(1,1,0)`. -/
def twoSquaresInput : List (String × FaceJson) :=
  [("Face_A", formatToJson [⟨0,0,0⟩, ⟨1,0,0⟩, ⟨1,1,0⟩, ⟨0,1,0⟩]),
   ("Face_B", formatToJson [⟨1,0,0⟩, ⟨2,0,0⟩, ⟨2,1,0⟩, ⟨1,1,0⟩])]

/-- The vertex loop of a single degenerate face: 3 collinear points. -/
def degenerateVerts : List P3 := [⟨0,0,0⟩, ⟨1,0,0⟩, ⟨2,0,0⟩]

/-- A single degenerate face (3 collinear points) processed alone. -/
def degenerateInput : List (String × FaceJson) :=
  [("Face_A", formatToJson degenerateVerts)]

/-- Counterexample input for the idempotence claim: a 2×1 rectangle, and a
second rectangle above it whose bottom-left region carries an extra
collinear vertex at `x = 1.9992` splitting its bottom edge into pieces whose
individual overlaps with the first rectangle's top edge are `0.0008` each
(below `point_tol = 0.001`), while the merged edge overlaps by `0.0016`. -/
def idemCxInput : List (String × FaceJson) :=
  [("Face_A", formatToJson [⟨0,0,0⟩, ⟨2,0,0⟩, ⟨2,1,0⟩, ⟨0,1,0⟩]),
   ("Face_B", formatToJson
     [⟨mkRat 19984 10000, 1, 0⟩, ⟨mkRat 19992 10000, 1, 0⟩, ⟨mkRat 397 100, 1, 0⟩,
      ⟨mkRat 397 100, 2, 0⟩, ⟨mkRat 19984 10000, 2, 0⟩])]

/-- A single already-merged unit square keyed the way a pass emits it; a
fixed point of a single pass at any of the tolerances used below. -/
def stableSquareInput : List (String × FaceJson) :=
  [("Plane_001", formatToJson [⟨0,0,0⟩, ⟨1,0,0⟩, ⟨1,1,0⟩, ⟨0,1,0⟩])]

/-- A face record whose normal is the downward `z` axis (seed of the
grouping counterexample; grouping reads only `normal` and `d`). -/
def cxSeedFace : FaceRec :=
  { originalKey := "Face_A", verts := [], normal := ⟨0,0,-1⟩, d := 0, edges := [] }

/-- A face record whose normal is the `y` axis: its dot product with the
seed's normal is exactly `0 = 1 - norm_tol` at `norm_tol = 1`. -/
def cxPerpFace : FaceRec :=
  { originalKey := "Face_B", verts := [], normal := ⟨0,1,0⟩, d := 0, edges := [] }

/-- A face record with two extracted vertices only, for the
skipped-small-face witness. -/
def smallFaceInput : List (String × FaceJson) :=
  [("Face_Small", formatToJson [⟨0,0,0⟩, ⟨1,0,0⟩]),
   ("Face_A", formatToJson [⟨0,0,0⟩, ⟨1,0,0⟩, ⟨1,1,0⟩, ⟨0,1,0⟩])]

/-- The (single) cluster the degenerate input produces, used as the concrete
instance of the abandoned-merge passthrough theorem. -/
def degClusterW : List FaceRec :=
  (allClusters (1/100) (1/100) (1/1000) degenerateInput).headD []

/-- The degenerate face record inside that cluster. -/
def degFaceW : FaceRec := degClusterW.headD default

/-- A decomposition oracle that always fails (exercising the `(0,0,1)`
fallback of the hull consolidation). -/
def svdNoneW : List P3 → Option P3 := fun _ => none

/-- A hull oracle that always succeeds with an empty index list. -/
def hullEmptyW : List (ℚ × ℚ) → Option (List Nat) := fun _ => some []

/-- A single triangle, input of the hull-consolidation witness. -/
def convexItemsW : List (String × FaceJson) :=
  [("Face_A", formatToJson [⟨0,0,0⟩, ⟨1,0,0⟩, ⟨0,1,0⟩])]

/-- A face record with jumbled key order, a non-dict `vertex` entry and
missing coordinates, for the vertex-extraction witness. -/
def c10Data : FaceJson :=
  [("My_Vertex_2", PyVal.pdict [("x", 5)]),
   ("name", PyVal.pdict [("x", 9), ("y", 9), ("z", 9)]),
   ("Vertex_B", PyVal.other),
   ("VERTEX_A", PyVal.pdict [("y", 7), ("z", 1)])]

/-- The same record with a different insertion order. -/
def c10DataPerm : FaceJson :=
  [("VERTEX_A", PyVal.pdict [("y", 7), ("z", 1)]),
   ("Vertex_B", PyVal.other),
   ("My_Vertex_2", PyVal.pdict [("x", 5)]),
   ("name", PyVal.pdict [("x", 9), ("y", 9), ("z", 9)])]

/-! ## Shared lemmas -/

/-- Lemma: `merge_planes` always runs exactly the two scheduled passes: the loop
body of pass 1 never early-returns, pass 2 runs at the fixed relaxed
tolerance `0.05`, and the `point_tol` field is restored before either exit
path of pass 2, so the result is the plain composition of the two passes
with the original tolerance returned. -/
theorem mergePlanesSt_eq_two_pass (normTol distTol pointTol : ℚ)
    (items : List (String × FaceJson)) :
    mergePlanesSt normTol distTol pointTol items =
      (executeSinglePass normTol distTol ((5:ℚ)/100)
        (executeSinglePass normTol distTol pointTol items), pointTol) := by
  simp only [mergePlanesSt, List.foldl, mergeLoopBody]
  norm_num
  split <;> exact ⟨rfl, rfl⟩

/-- The inner grouping scan collects exactly the unvisited faces meeting the
seed's condition (in order), marks exactly those visited, and preserves the
list length. -/
theorem gbpInner_sp (nt dt : ℚ) (seed : FaceRec) (l : List (FaceRec × Bool)) :
    (gbpInner nt dt seed l).1 =
      (unvisitedFaces l).filter (planeCond nt dt seed) ∧
    unvisitedFaces (gbpInner nt dt seed l).2 =
      (unvisitedFaces l).filter (fun g => !(planeCond nt dt seed g)) ∧
    (gbpInner nt dt seed l).2.length = l.length := by
  induction l with
  | nil => exact ⟨rfl, rfl, rfl⟩
  | cons hd tl ih =>
    obtain ⟨f, vis⟩ := hd
    obtain ⟨ih1, ih2, ih3⟩ := ih
    simp only [unvisitedFaces] at ih2
    cases vis with
    | true =>
      refine ⟨?_, ?_, ?_⟩ <;>
        simp [gbpInner, unvisitedFaces, List.filter_cons, ih1, ih2, ih3]
    | false =>
      cases hc : planeCond nt dt seed f with
      | true =>
        refine ⟨?_, ?_, ?_⟩ <;>
          simp [gbpInner, unvisitedFaces, List.filter_cons, hc, ih1, ih2, ih3]
      | false =>
        refine ⟨?_, ?_, ?_⟩ <;>
          simp [gbpInner, unvisitedFaces, List.filter_cons, hc, ih1, ih2, ih3]

/-- The inner grouping scan on an all-unvisited list: it joins exactly the
condition-satisfying faces and flags exactly those. -/
theorem gbpInner_falseList (nt dt : ℚ) (seed : FaceRec) (fs : List FaceRec) :
    gbpInner nt dt seed (fs.map (fun f => (f, false))) =
      (fs.filter (planeCond nt dt seed),
       fs.map (fun f => (f, planeCond nt dt seed f))) := by
  induction fs with
  | nil => rfl
  | cons f rest ih =>
    cases hc : planeCond nt dt seed f <;>
      simp [gbpInner, hc, List.filter_cons, ih]

theorem unvisitedFaces_mapped (p : FaceRec → Bool) (fs : List FaceRec) :
    unvisitedFaces (fs.map (fun g => (g, p g))) = fs.filter (fun g => !(p g)) := by
  induction fs with
  | nil => rfl
  | cons f rest ih =>
    simp only [unvisitedFaces, List.map_cons, List.filter_cons] at ih ⊢
    cases hc : p f <;> simp [hc, ih]

theorem unvisitedFaces_length_le (l : List (FaceRec × Bool)) :
    (unvisitedFaces l).length ≤ l.length := by
  simp only [unvisitedFaces, List.length_map]
  exact List.length_filter_le _ _

/-- The outer grouping loop only depends on the unvisited faces: with enough
fuel it equals the loop restarted on the unvisited sublist. -/
theorem gbpOuter_canon (nt dt : ℚ) :
    ∀ fuel (l : List (FaceRec × Bool)), l.length ≤ fuel →
      gbpOuter nt dt fuel l =
        gbpOuter nt dt (unvisitedFaces l).length
          ((unvisitedFaces l).map (fun f => (f, false))) := by
  intro fuel
  induction fuel using Nat.strong_induction_on with
  | _ fuel ih =>
    intro l hl
    cases fuel with
    | zero =>
      have hnil : l = [] := List.eq_nil_of_length_eq_zero (Nat.le_zero.mp hl)
      subst hnil; rfl
    | succ fuel =>
      cases l with
      | nil => rfl
      | cons hd rest =>
        obtain ⟨f, vis⟩ := hd
        have hlen : rest.length ≤ fuel := by
          simpa [Nat.succ_le_succ_iff] using hl
        cases vis with
        | true =>
          have h1 : gbpOuter nt dt (fuel + 1) ((f, true) :: rest)
              = gbpOuter nt dt fuel rest := rfl
          have h2 : unvisitedFaces ((f, true) :: rest) = unvisitedFaces rest := by
            simp [unvisitedFaces, List.filter_cons]
          rw [h1, h2, ih fuel (Nat.lt_succ_self _) rest hlen]
        | false =>
          have h1 : gbpOuter nt dt (fuel + 1) ((f, false) :: rest)
              = (f :: (gbpInner nt dt f rest).1)
                :: gbpOuter nt dt fuel (gbpInner nt dt f rest).2 := rfl
          have h2 : unvisitedFaces ((f, false) :: rest) = f :: unvisitedFaces rest := by
            simp [unvisitedFaces, List.filter_cons]
          have h3 : gbpOuter nt dt (f :: unvisitedFaces rest).length
              ((f :: unvisitedFaces rest).map (fun f => (f, false)))
              = (f :: (gbpInner nt dt f ((unvisitedFaces rest).map (fun f => (f, false)))).1)
                :: gbpOuter nt dt (unvisitedFaces rest).length
                  (gbpInner nt dt f ((unvisitedFaces rest).map (fun f => (f, false)))).2 := rfl
          obtain ⟨s1, s2, s3⟩ := gbpInner_sp nt dt f rest
          rw [h1, h2, h3, gbpInner_falseList, s1]
          have tl1 : gbpOuter nt dt fuel (gbpInner nt dt f rest).2
              = gbpOuter nt dt (unvisitedFaces (gbpInner nt dt f rest).2).length
                ((unvisitedFaces (gbpInner nt dt f rest).2).map (fun f => (f, false))) :=
            ih fuel (Nat.lt_succ_self _) _ (by rw [s3]; exact hlen)
          rw [tl1, s2]
          have hfu : (unvisitedFaces rest).length < fuel + 1 :=
            Nat.lt_succ_of_le (Nat.le_trans (unvisitedFaces_length_le rest) hlen)
          have tl2 : gbpOuter nt dt (unvisitedFaces rest).length
              ((unvisitedFaces rest).map (fun g => (g, planeCond nt dt f g)))
              = gbpOuter nt dt
                  (unvisitedFaces ((unvisitedFaces rest).map
                    (fun g => (g, planeCond nt dt f g)))).length
                  ((unvisitedFaces ((unvisitedFaces rest).map
                    (fun g => (g, planeCond nt dt f g)))).map (fun f => (f, false))) :=
            ih (unvisitedFaces rest).length hfu _ (by simp)
          rw [tl2, unvisitedFaces_mapped]

theorem getD_cons_drop (verts : List P3) (i : Nat) (h : i < verts.length) :
    verts.drop i = verts.getD i default :: verts.drop (i + 1) := by
  rw [List.drop_eq_getElem_cons h, List.getD_eq_getElem verts default h]

/-- The index loop of `_remove_short_edges` started at `i` with the matching
fuel agrees with the linear forward scan of the remaining vertices (the
wraparound comparison at the last index is immaterial: both of its branches
emit the last vertex and stop). -/
theorem rseLoop_scan (tolSq : ℚ) (verts : List P3) :
    ∀ k i, i + k = verts.length →
      rseLoop tolSq verts verts.length k i false =
        shortEdgeScanSpec tolSq (verts.drop i) ∧
      rseLoop tolSq verts verts.length k i true =
        shortEdgeScanSpec tolSq (verts.drop (i + 1)) := by
  intro k
  induction k with
  | zero =>
    intro i hi
    constructor
    · rw [show rseLoop tolSq verts verts.length 0 i false = [] from rfl]
      rw [List.drop_of_length_le (by omega)]
      rfl
    · rw [show rseLoop tolSq verts verts.length 0 i true = [] from rfl]
      rw [List.drop_of_length_le (by omega)]
      rfl
  | succ k ih =>
    intro i hi
    have hin : i < verts.length := by omega
    have hni : ¬ (verts.length ≤ i) := by omega
    constructor
    · by_cases hlast : i + 1 < verts.length
      · have hmod : (i + 1) % verts.length = i + 1 := Nat.mod_eq_of_lt hlast
        have hd1 : verts.drop i = verts.getD i default :: verts.drop (i + 1) :=
          getD_cons_drop verts i hin
        have hd2 : verts.drop (i + 1)
            = verts.getD (i + 1) default :: verts.drop (i + 2) :=
          getD_cons_drop verts (i + 1) hlast
        have hdec : decide (i < verts.length - 1) = true := by
          simp; omega
        simp only [rseLoop, hni, if_false, hmod, hdec]
        rw [hd1, hd2]
        simp only [shortEdgeScanSpec]
        by_cases hc : distSq (verts.getD i default) (verts.getD (i + 1) default) < tolSq
        · simp only [hc, if_true, if_pos hc]
          have h5 := (ih (i + 1) (by omega)).2
          rw [h5]
          simp
        · simp only [hc, if_false, if_neg hc]
          have h5 := (ih (i + 1) (by omega)).1
          rw [h5, hd2]
          simp
      · have hk0 : k = 0 := by omega
        subst hk0
        have hd1 := getD_cons_drop verts i hin
        have hd2 : verts.drop (i + 1) = [] := List.drop_of_length_le (by omega)
        rw [hd1, hd2]
        simp [rseLoop, hni, ite_self, shortEdgeScanSpec]
    · simp only [rseLoop, hni, if_false, if_true]
      exact (ih (i + 1) (by omega)).1

/-- When boundary reconstruction finds no boundary edge, or chaining closes
no loop, `_merge_cluster_to_polygons` returns `None`. -/
theorem mcp_none (pointTol : ℚ) (cluster : List FaceRec)
    (h : boundaryEdgesOf (resolveTJunctions pointTol cluster) = [] ∨
         chainEdgesAll (boundaryEdgesOf (resolveTJunctions pointTol cluster)) = []) :
    mergeClusterToPolygons pointTol cluster = none := by
  rcases h with h | h
  · simp [mergeClusterToPolygons, h]
  · by_cases hb : boundaryEdgesOf (resolveTJunctions pointTol cluster) = []
    · simp [mergeClusterToPolygons, hb]
    · simp [mergeClusterToPolygons, h, List.isEmpty_iff, hb]

theorem passthrough_mem (f : FaceRec) :
    ∀ (c : List FaceRec) (idx : Nat), f ∈ c →
      ∃ key, (key, formatToJson f.verts) ∈ passthroughEntries c idx := by
  intro c
  induction c with
  | nil => intro idx h; cases h
  | cons g rest ih =>
    intro idx h
    rcases List.mem_cons.mp h with rfl | h2
    · exact ⟨"Plane_" ++ pad3 idx, List.mem_cons_self _ _⟩
    · obtain ⟨k, hk⟩ := ih (idx + 1) h2
      exact ⟨k, List.mem_cons_of_mem _ hk⟩

/-- Every face of a cluster whose merge came back `None` is re-emitted by
the cluster loop, whatever the surrounding clusters contribute. -/
theorem processClusters_passthrough (pointTol : ℚ) :
    ∀ (cs : List (List FaceRec)) (idx : Nat) (cluster : List FaceRec),
      cluster ∈ cs →
      mergeClusterToPolygons pointTol cluster = none →
      ∀ f ∈ cluster,
        ∃ key, (key, formatToJson f.verts) ∈ processClusters pointTol cs idx := by
  intro cs
  induction cs with
  | nil => intro idx cluster h; cases h
  | cons c rest ih =>
    intro idx cluster hmem hnone f hf
    rcases List.mem_cons.mp hmem with rfl | h2
    · have hpoly : (mergeClusterToPolygons pointTol cluster).getD ([] : List (List P3)) = [] := by
        rw [hnone]; rfl
      obtain ⟨k, hk⟩ := passthrough_mem f cluster idx hf
      refine ⟨k, ?_⟩
      simp only [processClusters, hpoly, List.isEmpty_nil, if_true]
      exact List.mem_append_left _ hk
    · simp only [processClusters]
      split
      · obtain ⟨k, hk⟩ := ih (idx + c.length) cluster h2 hnone f hf
        exact ⟨k, List.mem_append_right _ hk⟩
      · obtain ⟨k, hk⟩ :=
          ih (idx + ((mergeClusterToPolygons pointTol c).getD []).length) cluster h2 hnone f hf
        exact ⟨k, List.mem_append_right _ hk⟩

/-- The `face_list` construction ignores exactly the faces with fewer than
3 extracted vertices: filtering them away first changes nothing. -/
theorem buildFaceList_filter (items : List (String × FaceJson)) :
    buildFaceList items =
      buildFaceList (items.filter (fun kv => decide (3 ≤ (extractVertices kv.2).length))) := by
  induction items with
  | nil => rfl
  | cons kv rest ih =>
    by_cases h : (extractVertices kv.2).length < 3
    · have hd : decide (3 ≤ (extractVertices kv.2).length) = false := by
        simp; omega
      simp only [buildFaceList, List.filterMap_cons, List.filter_cons, hd, if_false,
        Bool.false_eq_true] at ih ⊢
      simp only [h, if_true]
      exact ih
    · have hd : decide (3 ≤ (extractVertices kv.2).length) = true := by
        simp; omega
      simp only [buildFaceList, List.filterMap_cons, List.filter_cons, hd, if_true] at ih ⊢
      simp only [h, if_false]
      exact congrArg _ ih

theorem charListLt_asymm : ∀ (l1 l2 : List Char),
    charListLt l1 l2 = true → charListLt l2 l1 = false
  | [], [] => by simp [charListLt]
  | [], _ :: _ => by simp [charListLt]
  | _ :: _, [] => by simp [charListLt]
  | a :: as, b :: bs => by
    simp only [charListLt]
    intro h
    by_cases hab : a < b
    · rw [if_neg (Char.lt_asymm hab), if_pos hab]
    · rw [if_neg hab] at h
      by_cases hba : b < a
      · rw [if_pos hba] at h; cases h
      · rw [if_neg hba] at h
        rw [if_neg hba, if_neg hab]
        exact charListLt_asymm as bs h

theorem charListLt_conn : ∀ (l1 l2 : List Char),
    charListLt l1 l2 = false → charListLt l2 l1 = false → l1 = l2
  | [], [] => fun _ _ => rfl
  | [], _ :: _ => by simp [charListLt]
  | _ :: _, [] => by intro h1 h2; simp [charListLt] at h2
  | a :: as, b :: bs => by
    intro h1 h2
    simp only [charListLt] at h1 h2
    by_cases hab : a < b
    · rw [if_pos hab] at h1; cases h1
    · by_cases hba : b < a
      · rw [if_pos hba] at h2; cases h2
      · rw [if_neg hab, if_neg hba] at h1
        rw [if_neg hba, if_neg hab] at h2
        have hc : a = b := le_antisymm (Char.not_lt.mp hba) (Char.not_lt.mp hab)
        rw [hc, charListLt_conn as bs h1 h2]

theorem charListLt_trans : ∀ (l1 l2 l3 : List Char),
    charListLt l1 l2 = true → charListLt l2 l3 = true → charListLt l1 l3 = true
  | [], [], _ => by simp [charListLt]
  | [], _ :: _, [] => by intro _ h2; simp [charListLt] at h2
  | [], _ :: _, _ :: _ => by intro _ _; rfl
  | _ :: _, [], _ => by simp [charListLt]
  | _ :: _, _ :: _, [] => by intro _ h2; simp [charListLt] at h2
  | a :: as, b :: bs, c :: cs => by
    intro h1 h2
    simp only [charListLt] at h1 h2 ⊢
    by_cases hab : a < b
    · by_cases hbc : b < c
      · rw [if_pos (Char.lt_trans hab hbc)]
      · rw [if_neg hbc] at h2
        by_cases hcb : c < b
        · rw [if_pos hcb] at h2; cases h2
        · have hbceq : b = c := le_antisymm (Char.not_lt.mp hcb) (Char.not_lt.mp hbc)
          rw [if_pos (hbceq ▸ hab)]
    · rw [if_neg hab] at h1
      by_cases hba : b < a
      · rw [if_pos hba] at h1; cases h1
      · rw [if_neg hba] at h1
        have habeq : a = b := le_antisymm (Char.not_lt.mp hba) (Char.not_lt.mp hab)
        subst habeq
        by_cases hac : a < c
        · rw [if_pos hac]
        · rw [if_neg hac] at h2 ⊢
          by_cases hca : c < a
          · rw [if_pos hca] at h2; cases h2
          · rw [if_neg hca] at h2 ⊢
            exact charListLt_trans as bs cs h1 h2

theorem stringExt {a b : String} (h : a.data = b.data) : a = b := by
  cases a; cases b; exact congrArg String.mk h

theorem strLtB_asymm {a b : String} (h : strLtB a b = true) : strLtB b a = false :=
  charListLt_asymm a.toList b.toList h

theorem strLtB_conn {a b : String} (h1 : strLtB a b = false) (h2 : strLtB b a = false) :
    a = b :=
  stringExt (charListLt_conn a.toList b.toList h1 h2)

theorem strLtB_link {a b c : String} (h1 : strLtB c b = true) (h2 : strLtB c a = false) :
    strLtB a b = true := by
  by_cases hac : charListLt a.toList c.toList = true
  · exact charListLt_trans a.toList c.toList b.toList hac h1
  · have he : a = c :=
      stringExt (charListLt_conn a.toList c.toList (Bool.eq_false_iff.mpr hac) h2)
    rw [he]; exact h1

theorem insByLt_comm {α : Type} (lt : α → α → Bool)
    (hasym : ∀ x y, lt x y = true → lt y x = false)
    (hanti : ∀ x y, lt x y = false → lt y x = false → x = y)
    (hlink : ∀ x y z, lt z y = true → lt z x = false → lt x y = true)
    (a b : α) : ∀ s, insByLt lt a (insByLt lt b s) = insByLt lt b (insByLt lt a s) := by
  intro s
  induction s with
  | nil =>
    simp only [insByLt]
    cases hba : lt b a <;> cases hab : lt a b <;> simp [hba, hab]
    · exact ⟨hanti a b hab hba, hanti b a hba hab⟩
    · have hf := hasym a b hab
      rw [hf] at hba; cases hba
  | cons c s ih =>
    cases hcb : lt c b <;> cases hca : lt c a
    · -- c is not below either: both insert in front of c
      simp only [insByLt, hcb, hca, Bool.false_eq_true, if_false]
      cases hba : lt b a <;> cases hab : lt a b <;>
        simp [insByLt, hba, hab, hcb, hca]
      · exact ⟨hanti a b hab hba, hanti b a hba hab⟩
      · have hf := hasym a b hab
        rw [hf] at hba; cases hba
    · -- c below a only
      have hba : lt b a = true := hlink b a c hca hcb
      have hab : lt a b = false := hasym b a hba
      simp [insByLt, hcb, hca, hba, hab]
    · -- c below b only
      have hab : lt a b = true := hlink a b c hcb hca
      have hba : lt b a = false := hasym a b hab
      simp [insByLt, hcb, hca, hba, hab]
    · -- c below both: recurse
      simp [insByLt, hcb, hca, ih]


theorem sortByLt_perm_eq {α : Type} (lt : α → α → Bool)
    (hasym : ∀ x y, lt x y = true → lt y x = false)
    (hanti : ∀ x y, lt x y = false → lt y x = false → x = y)
    (hlink : ∀ x y z, lt z y = true → lt z x = false → lt x y = true)
    {l l' : List α} (hp : l.Perm l') : sortByLt lt l = sortByLt lt l' := by
  induction hp with
  | nil => rfl
  | cons x _ ih => simp [sortByLt, ih]
  | swap x y l => simp [sortByLt, insByLt_comm lt hasym hanti hlink]
  | trans _ _ ih1 ih2 => rw [ih1, ih2]

theorem insByLt_perm {α : Type} (lt : α → α → Bool) (y : α) :
    ∀ s : List α, (insByLt lt y s).Perm (y :: s) := by
  intro s
  induction s with
  | nil => exact List.Perm.refl _
  | cons z zs ihz =>
    by_cases h : lt z y = true
    · simp only [insByLt, h, if_true]
      exact (ihz.cons z).trans (List.Perm.swap y z zs)
    · have hf : lt z y = false := Bool.eq_false_iff.mpr h
      simp [insByLt, hf]

theorem sortByLt_perm {α : Type} (lt : α → α → Bool) :
    ∀ l : List α, (sortByLt lt l).Perm l := by
  intro l
  induction l with
  | nil => exact List.Perm.refl _
  | cons x xs ih =>
    exact (insByLt_perm lt x (sortByLt lt xs)).trans (ih.cons x)

theorem insByLt_map {α β : Type} (lt : β → β → Bool) (f : α → β) (y : α) :
    ∀ s : List α,
      (insByLt (fun a b => lt (f a) (f b)) y s).map f = insByLt lt (f y) (s.map f) := by
  intro s
  induction s with
  | nil => rfl
  | cons z zs ihz =>
    by_cases h : lt (f z) (f y) = true <;>
      simp [insByLt, h, ihz]

theorem sortByLt_map {α β : Type} (lt : β → β → Bool) (f : α → β) :
    ∀ l : List α,
      (sortByLt (fun a b => lt (f a) (f b)) l).map f = sortByLt lt (l.map f) := by
  intro l
  induction l with
  | nil => rfl
  | cons x xs ih =>
    simp only [sortByLt, List.map_cons, insByLt_map, ih]

theorem lookup_mem_nodup :
    ∀ (data : List (String × PyVal)) (k : String) (v : PyVal),
      (k, v) ∈ data → (data.map Prod.fst).Nodup → data.lookup k = some v := by
  intro data
  induction data with
  | nil => intro k v h; cases h
  | cons kv rest ih =>
    intro k v hmem hnd
    obtain ⟨k0, v0⟩ := kv
    simp only [List.map_cons, List.nodup_cons] at hnd
    rcases List.mem_cons.mp hmem with heq | hr
    · cases heq
      simp [List.lookup]
    · have hne : (k == k0) = false := by
        apply beq_false_of_ne
        intro he
        subst he
        exact hnd.1 (List.mem_map_of_mem Prod.fst hr)
      simp only [List.lookup, hne]
      exact ih k v hr hnd.2

theorem filterMap_congr_mem {α β : Type} {f g : α → Option β} :
    ∀ {l : List α}, (∀ a ∈ l, f a = g a) → l.filterMap f = l.filterMap g := by
  intro l
  induction l with
  | nil => intro _; rfl
  | cons x xs ih =>
    intro h
    simp only [List.filterMap_cons, h x (List.mem_cons_self x xs)]
    cases g x <;> simp [ih (fun a ha => h a (List.mem_cons_of_mem _ ha))]

theorem extractVertices_canon (data : FaceJson)
    (hnd : (data.map Prod.fst).Nodup) :
    extractVertices data =
      (sortByLt (fun a b => strLtB a.1 b.1)
        (data.filter (fun kv => hasVertexKey kv.1))).filterMap pairToPoint := by
  unfold extractVertices
  have hfm : (data.map Prod.fst).filter hasVertexKey
      = (data.filter (fun kv => hasVertexKey kv.1)).map Prod.fst := by
    rw [List.filter_map]
    rfl
  rw [hfm, ← sortByLt_map strLtB Prod.fst, List.filterMap_map]
  apply filterMap_congr_mem
  intro kv hkv
  have hkv2 : kv ∈ data.filter (fun kv => hasVertexKey kv.1) :=
    (sortByLt_perm _ _).subset hkv
  have hkv3 : kv ∈ data := List.mem_of_mem_filter hkv2
  have hl : data.lookup kv.1 = some kv.2 := lookup_mem_nodup data kv.1 kv.2 hkv3 hnd
  show (match data.lookup kv.1 with
    | some (PyVal.pdict fields) =>
      some (⟨pyGet fields "x", pyGet fields "y", pyGet fields "z"⟩ : P3)
    | _ => none) = pairToPoint kv
  rw [hl]
  cases hv : kv.2 <;> simp [pairToPoint, hv]

theorem extractVertices_perm (data data' : FaceJson)
    (hnd : (data.map Prod.fst).Nodup) (hp : data.Perm data') :
    extractVertices data = extractVertices data' := by
  unfold extractVertices
  have hkeys : sortByLt strLtB ((data'.map Prod.fst).filter hasVertexKey)
      = sortByLt strLtB ((data.map Prod.fst).filter hasVertexKey) :=
    sortByLt_perm_eq strLtB (fun x y => strLtB_asymm) (fun x y => strLtB_conn)
      (fun x y z => strLtB_link) ((hp.map Prod.fst).filter hasVertexKey).symm
  rw [hkeys]
  apply filterMap_congr_mem
  intro k hk
  have hk2 : k ∈ (data.map Prod.fst).filter hasVertexKey :=
    (sortByLt_perm _ _).subset hk
  have hk3 : k ∈ data.map Prod.fst := List.mem_of_mem_filter hk2
  obtain ⟨kv, hkv, hke⟩ := List.mem_map.mp hk3
  subst hke
  have h1 : data.lookup kv.1 = some kv.2 := lookup_mem_nodup data kv.1 kv.2 hkv hnd
  have h2 : data'.lookup kv.1 = some kv.2 :=
    lookup_mem_nodup data' kv.1 kv.2 (hp.subset hkv) ((hp.map Prod.fst).nodup hnd)
  rw [h1, h2]

/-! ## Claim theorems -/

/-- C1.  For every cluster processed by a merge pass, if boundary
reconstruction yields no boundary edges or edge chaining closes no loop,
the merge of that cluster is abandoned and every member face of the cluster
appears in the pass output under some fresh key with its original vertex
loop — no input face's geometry is silently dropped by a failed merge. -/
theorem claim_C1_abandoned_passthrough (normTol distTol pointTol : ℚ)
    (items : List (String × FaceJson)) (cluster : List FaceRec)
    (hc : cluster ∈ allClusters normTol distTol pointTol items)
    (hb : boundaryEdgesOf (resolveTJunctions pointTol cluster) = [] ∨
          chainEdgesAll (boundaryEdgesOf (resolveTJunctions pointTol cluster)) = [])
    (f : FaceRec) (hf : f ∈ cluster) :
    ∃ key, (key, formatToJson f.verts) ∈
      executeSinglePass normTol distTol pointTol items :=
  processClusters_passthrough pointTol (allClusters normTol distTol pointTol items) 1
    cluster hc (mcp_none pointTol cluster hb) f hf

/-- Witness for C1: the degenerate-input cluster has no boundary edge after
T-junction resolution, and its face is re-emitted with its vertex loop. -/
theorem claim_C1_witness :
    degClusterW ∈ allClusters (1/100) (1/100) (1/1000) degenerateInput ∧
    boundaryEdgesOf (resolveTJunctions (1/1000) degClusterW) = [] ∧
    degFaceW ∈ degClusterW ∧
    ∃ key, (key, formatToJson degFaceW.verts) ∈
      executeSinglePass (1/100) (1/100) (1/1000) degenerateInput :=
  ⟨by decide, by decide, by decide,
   claim_C1_abandoned_passthrough (1/100) (1/100) (1/1000) degenerateInput degClusterW
     (by decide) (Or.inl (by decide)) degFaceW (by decide)⟩

/-- C2.  For the input consisting of two coplanar unit squares sharing one
full edge, `merge_planes` returns a mapping containing exactly one face: the
2×1 rectangle with exactly 4 vertices. -/
theorem claim_C2_two_squares_merge :
    (mergePlanesSt (1/100) (1/100) (1/1000) twoSquaresInput).1 =
      [("Plane_001", formatToJson [⟨0,0,0⟩, ⟨2,0,0⟩, ⟨2,1,0⟩, ⟨0,1,0⟩])] := by
  decide

/-- C3.  `merge_planes` runs exactly two passes on every input — pass 1 at
the configured `point_tol` and pass 2 at the fixed relaxed value `0.05` —
and the orchestrator's `point_tol` field equals its pre-call value after the
call returns (`norm_tol` and `dist_tol` are plain parameters the function
never rebinds). -/
theorem claim_C3_two_pass_schedule (normTol distTol pointTol : ℚ)
    (items : List (String × FaceJson)) :
    mergePlanesSt normTol distTol pointTol items =
      (executeSinglePass normTol distTol ((5:ℚ)/100)
        (executeSinglePass normTol distTol pointTol items), pointTol) :=
  mergePlanesSt_eq_two_pass normTol distTol pointTol items

/-- C4.  For every input mapping whose key list is not already the single
synthetic key, `merge_by_convex_hull` returns the input unchanged exactly
when fewer than 3 vertices are collected or the 2D convex-hull computation
fails, and otherwise returns a mapping with exactly one synthetic face
`Merged_BackSide` replacing all inputs.  (The SVD and the hull routine are
`numpy`/`scipy` calls outside this repo, modelled as oracles; an SVD failure only
switches to the `(0,0,1)` fallback normal and never causes passthrough.) -/
theorem claim_C4_hull_passthrough_or_single (svd : List P3 → Option P3)
    (hull : List (ℚ × ℚ) → Option (List Nat)) (items : List (String × FaceJson))
    (hk : items.map Prod.fst ≠ ["Merged_BackSide"]) :
    (mergeByConvexHull svd hull items = items ↔
      ((allVertsOf items).length < 3 ∨ hull (projectedPoints svd items) = none)) ∧
    (¬((allVertsOf items).length < 3 ∨ hull (projectedPoints svd items) = none) →
      ∃ f, mergeByConvexHull svd hull items = [("Merged_BackSide", f)]) := by
  by_cases h3 : (allVertsOf items).length < 3
  · constructor
    · simp [mergeByConvexHull, h3]
    · intro hcon; exact absurd (Or.inl h3) hcon
  · cases hh : hull (projectedPoints svd items) with
    | none =>
      constructor
      · simp [mergeByConvexHull, h3, hh]
      · intro hcon; exact absurd (Or.inr rfl) hcon
    | some idxs =>
      have hres : ∃ f, mergeByConvexHull svd hull items = [("Merged_BackSide", f)] := by
        simp only [mergeByConvexHull, h3, if_false, hh]
        exact ⟨_, rfl⟩
      obtain ⟨f0, hf0⟩ := hres
      constructor
      · constructor
        · intro he
          exfalso
          apply hk
          rw [← he, hf0]
          rfl
        · intro hor
          rcases hor with h | h
          · exact absurd h h3
          · exact Option.noConfusion h
      · intro _
        exact ⟨f0, hf0⟩

/-- Witness for C4: on a triangle with an always-successful hull oracle,
consolidation produces the single synthetic face. -/
theorem claim_C4_witness :
    (convexItemsW.map Prod.fst ≠ ["Merged_BackSide"]) ∧
    ¬(((allVertsOf convexItemsW).length < 3) ∨
       hullEmptyW (projectedPoints svdNoneW convexItemsW) = none) ∧
    ∃ f, mergeByConvexHull svdNoneW hullEmptyW convexItemsW = [("Merged_BackSide", f)] :=
  ⟨by decide, by decide,
   (claim_C4_hull_passthrough_or_single svdNoneW hullEmptyW convexItemsW (by decide)).2
     (by decide)⟩

/-- C5, counterexample.  At `norm_tol = dist_tol = 1`, a face whose normal
is exactly perpendicular to the seed's has dot product `0 = 1 - norm_tol`
and equal offset, so the claim's `≥ 1 - norm_tol` test predicts that it
joins the seed's group; the code's strict `>` comparison leaves the two
faces in separate singleton groups. -/
theorem claim_C5_cx_boundary_dot :
    groupByPlane 1 1 [cxSeedFace, cxPerpFace] = [[cxSeedFace], [cxPerpFace]] ∧
    dotV cxSeedFace.normal cxPerpFace.normal ≥ 1 - 1 ∧
    |cxSeedFace.d - cxPerpFace.d| < 1 := by
  decide

/-- C5, amended.  Plane grouping satisfies the greedy recursion: the first
face seeds the first group, every later face joins that group exactly when
its normal's dot with the seed's is strictly greater than `1 - norm_tol`
and its offset is within `dist_tol` of the seed's (`planeCond`, tested
against the seed only), and the remaining groups are exactly those of the
faces that did not join — i.e. each joining face was marked visited and is
never considered again. -/
theorem claim_C5_grouping (nt dt : ℚ) (f : FaceRec) (fs : List FaceRec) :
    groupByPlane nt dt (f :: fs) =
      (f :: fs.filter (planeCond nt dt f)) ::
        groupByPlane nt dt (fs.filter (fun g => !(planeCond nt dt f g))) := by
  unfold groupByPlane
  have h1 : gbpOuter nt dt (f :: fs).length ((f :: fs).map (fun f => (f, false)))
      = (f :: (gbpInner nt dt f (fs.map (fun f => (f, false)))).1)
        :: gbpOuter nt dt fs.length (gbpInner nt dt f (fs.map (fun f => (f, false)))).2 := rfl
  rw [h1, gbpInner_falseList]
  have h2 : gbpOuter nt dt fs.length (fs.map (fun g => (g, planeCond nt dt f g)))
      = gbpOuter nt dt
          (unvisitedFaces (fs.map (fun g => (g, planeCond nt dt f g)))).length
          ((unvisitedFaces (fs.map (fun g => (g, planeCond nt dt f g)))).map
            (fun f => (f, false))) :=
    gbpOuter_canon nt dt fs.length _ (by simp)
  rw [h2, unvisitedFaces_mapped]

/-- C6, counterexample.  On `idemCxInput`, pass 2 of the first
`merge_planes` application leaves the face count unchanged (2 faces in,
2 out, so the first application returns), yet feeding the returned mapping
back through `merge_planes` merges the two faces into one: the second
application returns 1 face where its input had 2, which no key renaming can
reconcile.  (Pass 1 creates a `0.0016` edge overlap by deleting a collinear
vertex; that overlap exceeds `point_tol = 0.001` but not the relaxed `0.05`,
so only the next application's pass 1 sees the adjacency.) -/
theorem claim_C6_cx_not_idempotent :
    (executeSinglePass (1/100) (1/100) ((5:ℚ)/100)
        (executeSinglePass (1/100) (1/100) (1/1000) idemCxInput)).length
      = (executeSinglePass (1/100) (1/100) (1/1000) idemCxInput).length ∧
    ((mergePlanesSt (1/100) (1/100) (1/1000)
        ((mergePlanesSt (1/100) (1/100) (1/1000) idemCxInput).1)).1).length = 1 ∧
    ((mergePlanesSt (1/100) (1/100) (1/1000) idemCxInput).1).length = 2 := by
  decide

/-- C6, amended.  Feeding `merge_planes` output back through `merge_planes`
returns it unchanged once the output is a fixed point of a single pass at
both the configured `point_tol` and the relaxed `0.05`; the claim's
pass-2-face-count-unchanged condition alone does not suffice (see the
counterexample). -/
theorem claim_C6_fixed_point (normTol distTol pointTol : ℚ)
    (d : List (String × FaceJson))
    (h1 : executeSinglePass normTol distTol pointTol d = d)
    (h2 : executeSinglePass normTol distTol ((5:ℚ)/100) d = d) :
    mergePlanesSt normTol distTol pointTol d = (d, pointTol) := by
  rw [mergePlanesSt_eq_two_pass, h1, h2]

/-- Witness for the amended C6 theorem: a single clean unit square is a
fixed point of a pass at both tolerances, and `merge_planes` returns it
unchanged with the tolerance intact. -/
theorem claim_C6_fixed_point_witness :
    executeSinglePass (1/100) (1/100) (1/1000) stableSquareInput = stableSquareInput ∧
    executeSinglePass (1/100) (1/100) ((5:ℚ)/100) stableSquareInput = stableSquareInput ∧
    mergePlanesSt (1/100) (1/100) (1/1000) stableSquareInput =
      (stableSquareInput, 1/1000) :=
  ⟨by decide, by decide,
   claim_C6_fixed_point (1/100) (1/100) (1/1000) stableSquareInput
     (by decide) (by decide)⟩

/-- C7.  Any vertex loop whose Newell vector has magnitude below `1e-9`
gets the fallback normal `(0, 1, 0)` from the classifier; and the single
degenerate face of 3 collinear points, processed alone, is passed through
by `merge_planes` with its vertex loop unchanged (the T-junction resolution
splices the middle point into the long edge, every undirected edge then
occurs twice, no boundary edge remains, and the cluster falls back to
passthrough). -/
theorem claim_C7_degenerate_fallback (verts : List P3)
    (h : sqrtQ (normSq (newellSum verts)) < 1/1000000000) :
    calculateNormal verts = ⟨0, 1, 0⟩ ∧
    (mergePlanesSt (1/100) (1/100) (1/1000) degenerateInput).1 =
      [("Plane_001", formatToJson degenerateVerts)] := by
  refine ⟨?_, by decide⟩
  simp only [calculateNormal]
  rw [if_pos h]

/-- Witness for C7 at the concrete degenerate loop. -/
theorem claim_C7_degenerate_fallback_witness :
    sqrtQ (normSq (newellSum degenerateVerts)) < 1/1000000000 ∧
    (calculateNormal degenerateVerts = ⟨0, 1, 0⟩ ∧
     (mergePlanesSt (1/100) (1/100) (1/1000) degenerateInput).1 =
       [("Plane_001", formatToJson degenerateVerts)]) :=
  ⟨by decide, claim_C7_degenerate_fallback degenerateVerts (by decide)⟩

/-- C9.  A face record from which fewer than 3 vertex entries are extracted
is silently omitted by a merge pass: the pass output equals the output on
the input with all such records filtered away (so the record joins no plane
group and appears in no output, not even as passthrough), and every face
record that does enter the face list has at least 3 vertices.  All
functions involved are total — no error is raised. -/
theorem claim_C9_small_faces_skipped (normTol distTol pointTol : ℚ)
    (items : List (String × FaceJson)) :
    executeSinglePass normTol distTol pointTol items =
      executeSinglePass normTol distTol pointTol
        (items.filter (fun kv => decide (3 ≤ (extractVertices kv.2).length))) ∧
    ∀ f ∈ buildFaceList items, 3 ≤ f.verts.length := by
  constructor
  · unfold executeSinglePass allClusters
    rw [← buildFaceList_filter]
  · intro f hf
    simp only [buildFaceList, List.mem_filterMap] at hf
    obtain ⟨kv, _, hkv⟩ := hf
    by_cases h : (extractVertices kv.2).length < 3
    · simp [h] at hkv
    · simp only [h, if_false] at hkv
      cases hkv
      simpa using Nat.not_lt.mp h

/-- Witness for C9 on an input containing a 2-vertex record. -/
theorem claim_C9_witness :
    executeSinglePass (1/100) (1/100) (1/1000) smallFaceInput =
      executeSinglePass (1/100) (1/100) (1/1000)
        (smallFaceInput.filter (fun kv => decide (3 ≤ (extractVertices kv.2).length))) ∧
    ((buildFaceList smallFaceInput).headD default ∈ buildFaceList smallFaceInput ∧
     3 ≤ ((buildFaceList smallFaceInput).headD default).verts.length) :=
  ⟨(claim_C9_small_faces_skipped (1/100) (1/100) (1/1000) smallFaceInput).1,
   by decide,
   (claim_C9_small_faces_skipped (1/100) (1/100) (1/1000) smallFaceInput).2 _ (by decide)⟩

/-- C8, counterexample.  In a 3-vertex loop whose last and first vertices
are closer than the tolerance, the claim's "every pair of cyclically
consecutive vertices" reading demands that the wraparound pair be merged;
the source's index loop appends the current vertex and can only skip at
`i < n - 1`, so the loop is returned unchanged. -/
theorem claim_C8_cx_wraparound :
    removeShortEdges 1 [⟨0,0,0⟩, ⟨5,0,0⟩, ⟨mkRat 1 2, 0, 0⟩] =
      [⟨0,0,0⟩, ⟨5,0,0⟩, ⟨mkRat 1 2, 0, 0⟩] ∧
    distSq ⟨mkRat 1 2, 0, 0⟩ ⟨0,0,0⟩ < 1 * 1 := by
  decide

/-- C8, amended.  On every loop of at least 3 vertices the short-edge step
equals the forward scan the claim describes restricted to the pairs at
positions `i < n-1`: scanning left to right, a pair closer than `point_tol`
is merged by keeping the first vertex and skipping the next; the cyclic
wraparound pair `(last, first)` is never merged (see the counterexample).
This step runs inside each of the at most 10 cleanup iterations, which stop
early when an iteration leaves the loop unchanged. -/
theorem claim_C8_scan_equiv (tol : ℚ) (a b c : P3) (rest : List P3) :
    removeShortEdges tol (a :: b :: c :: rest) =
      shortEdgeScanSpec (tol * tol) (a :: b :: c :: rest) := by
  have hlen : ¬ ((a :: b :: c :: rest).length < 3) := by simp
  have h := (rseLoop_scan (tol * tol) (a :: b :: c :: rest)
    (a :: b :: c :: rest).length 0 (by omega)).1
  rw [List.drop_zero] at h
  simpa [removeShortEdges, hlen] using h

/-- C10.  For every face record with distinct keys, the vertex loop used by
both merge operations is determined by key names alone: it is invariant
under permutation of the record's insertion order, and equals the record's
entries whose key contains the substring `vertex` case-insensitively,
sorted lexicographically by key, with non-dict values skipped and missing
`x`/`y`/`z` coordinates defaulting to `0` (`pairToPoint`). -/
theorem claim_C10_extract_order (data data' : FaceJson)
    (hnd : (data.map Prod.fst).Nodup) (hp : data.Perm data') :
    extractVertices data = extractVertices data' ∧
    extractVertices data =
      (sortByLt (fun a b => strLtB a.1 b.1)
        (data.filter (fun kv => hasVertexKey kv.1))).filterMap pairToPoint :=
  ⟨extractVertices_perm data data' hnd hp, extractVertices_canon data hnd⟩

/-- Witness for C10 on a concrete jumbled record and a permutation of it. -/
theorem claim_C10_witness :
    (c10Data.map Prod.fst).Nodup ∧ c10Data.Perm c10DataPerm ∧
    (extractVertices c10Data = extractVertices c10DataPerm ∧
     extractVertices c10Data =
       (sortByLt (fun a b => strLtB a.1 b.1)
         (c10Data.filter (fun kv => hasVertexKey kv.1))).filterMap pairToPoint) :=
  ⟨by decide, by decide, claim_C10_extract_order c10Data c10DataPerm (by decide) (by decide)⟩

end GeoMerge
